import Mathlib

set_option linter.unusedVariables false

/-!
Verification of the badge telemetry collector (data_collection.py and
live_graph_viewer.py) against its natural-language specification.
The Python source is shallowly embedded: the notification handler, the
CSV persistence layer, the discovery filter, the per-device connection
program with its start barrier, and the supervision loop are translated
into executable Lean definitions, and the specified properties are
proved or refuted about those definitions.
-/

/-- The registry of known badges: hardware address paired with the
friendly badge name, exactly the BADGE_ADDRESS dictionary of the source. -/
def BADGE_ADDRESS : List (String × String) :=
  [("D9:6D:90:A1:2B:3A", "Badge06"),
   ("99:0F:9A:A1:83:96", "Badge01"),
   ("F9:5C:35:CF:D8:53", "Badge09"),
   ("E9:7D:DA:71:28:2C", "Badge05"),
   ("F9:54:91:BD:45:86", "Badge10"),
   ("AA:F4:C8:5D:45:ED", "Badge04"),
   ("71:F2:53:B7:47:FA", "Badge08")]

/-- The key set of the registry dictionary. -/
def badgeKeys : List String := BADGE_ADDRESS.map Prod.fst

/-- Discovery filter of main: detected_badge_addresses is the list of
scanned addresses that are keys of BADGE_ADDRESS, in scan order. -/
def detected_badge_addresses (devices : List String) : List String :=
  devices.filter (fun a => badgeKeys.contains a)

/-- One in-memory reading, the dict appended to received_data by the
notification handler. -/
structure DataEntry where
  timestamp : String
  badge_name : String
  raw_data : String
  sound : String
  rssi : String
  acceleration : String
deriving DecidableEq

/-- Shared mutable session state touched by the notification handler, the
input handler and the per-connection setup code: the finished-connect
counter, the received_data list, the stop_collection flag, and the unified
CSV file on disk (none models the file being absent from disk). Rows are
kept structured; serialization to text is modelled separately. -/
structure SessionData where
  device_counter : Nat
  received_data : List DataEntry
  stop_collection : Bool
  csvFile : Option (List (List String))
deriving DecidableEq

/-- The fixed header row written by init_unified_csv_file. -/
def csvHeader : List String :=
  ["Timestamp", "Badge_Name", "Sound_Level", "RSSI", "Acceleration", "Raw_Data"]

/-- init_unified_csv_file: creates the session file holding only the
header row. -/
def init_unified_csv_file : Option (List (List String)) :=
  some [csvHeader]

/-- ensure_unified_csv_exists: if the file is missing from disk it is
recreated with the header row, otherwise it is left unchanged. -/
def ensure_unified_csv_exists :
    Option (List (List String)) → Option (List (List String))
  | none => some [csvHeader]
  | some rows => some rows

/-- save_to_csv: appends one row by opening the file in append mode.
Append mode creates the file when it is absent, so a removed file comes
back holding only the appended row, with no header. -/
def save_to_csv (file : Option (List (List String))) (row : List String) :
    Option (List (List String)) :=
  some (file.getD [] ++ [row])

/-- A payload delivered to the notification handler: either bytes that
decode as UTF-8 to the given text, or bytes whose decode raises (the
decode call is the first statement inside the try block). -/
inductive RawPayload
  | decoded (s : String)
  | undecodable
deriving DecidableEq

/-- Python str.split on a comma: splits at every comma; the empty string
yields one empty field. -/
def splitComma : List Char → List (List Char)
  | [] => [[]]
  | c :: t =>
    if c = ',' then [] :: splitComma t
    else
      match splitComma t with
      | [] => [[c]]
      | f :: fs => (c :: f) :: fs

/-- Whitespace characters removed by Python str.strip (ASCII part). -/
def isPyWS (c : Char) : Bool :=
  c = ' ' || c = '\t' || c = '\n' || c = '\r' || c = '\x0b' || c = '\x0c'

/-- Python str.strip on a character list. -/
def stripChars (l : List Char) : List Char :=
  ((l.dropWhile isPyWS).reverse.dropWhile isPyWS).reverse

/-- Python str.strip on a string. -/
def pyStrip (s : String) : String := String.mk (stripChars s.data)

/-- The notification handler produced by create_notification_handler for
one badge. If the stop flag is set it returns at once. Otherwise the
payload is decoded (a decode failure raises, is caught by the except
clause, and leaves all state unchanged), split on commas, and either
logged as a three-field reading (stripped values, appended both to
received_data and to the CSV file) or, for any other field count, logged
as a single best-effort CSV row with N/A in the three numeric fields and
the decoded text in Raw_Data, without touching received_data. -/
def notification_handler (badge_name ts : String) (data : RawPayload)
    (st : SessionData) : SessionData :=
  if st.stop_collection then st
  else
    match data with
    | RawPayload.undecodable => st
    | RawPayload.decoded decoded_data =>
      match splitComma decoded_data.data with
      | [v1, v2, v3] =>
        let sound_value := String.mk (stripChars v1)
        let rssi_value := String.mk (stripChars v2)
        let acc_value := String.mk (stripChars v3)
        let entry : DataEntry :=
          ⟨ts, badge_name, decoded_data, sound_value, rssi_value, acc_value⟩
        { st with
          received_data := st.received_data ++ [entry],
          csvFile := save_to_csv st.csvFile
            [ts, badge_name, sound_value, rssi_value, acc_value, decoded_data] }
      | _ =>
        { st with
          csvFile := save_to_csv st.csvFile
            [ts, badge_name, "N/A", "N/A", "N/A", decoded_data] }

/-- input_handler: the operator pressed ENTER; the stop flag is set. -/
def input_handler (st : SessionData) : SessionData :=
  { st with stop_collection := true }

/-- The shared-state effects of the collection-phase entry of
connection_run (the lines directly before subscription): the global
received_data list is reset to empty, the global stop_collection flag is
reset to false, and the unified CSV file is ensured to exist. -/
def connectionRunSetup (st : SessionData) : SessionData :=
  { st with
    received_data := [],
    stop_collection := false,
    csvFile := ensure_unified_csv_exists st.csvFile }

/-- Events that mutate the shared session state between barrier release
and unsubscribe: a push notification arriving at some badge handler, the
operator pressing ENTER, or a sibling connection task still running its
collection-phase setup (connectionRunSetup), which resets the shared
received_data list and clears the stop flag. -/
inductive SessEvent
  | notify (badge ts : String) (p : RawPayload)
  | pressEnter
  | siblingSetup
deriving DecidableEq

/-- Effect of one session event on the shared state. -/
def applySessEvent (st : SessionData) : SessEvent → SessionData
  | SessEvent.notify b ts p => notification_handler b ts p st
  | SessEvent.pressEnter => input_handler st
  | SessEvent.siblingSetup => connectionRunSetup st

/-- A session state used in concrete instantiations below. -/
def stIdle : SessionData := ⟨0, [], false, some [csvHeader]⟩

/-- A reading of Badge01 used in concrete instantiations below. -/
def entryB01 : DataEntry := ⟨"t0", "Badge01", "1,2,3", "1", "2", "3"⟩

/-- A stopped session state holding one reading of Badge01. -/
def stStopped : SessionData := ⟨2, [entryB01], true, some [csvHeader]⟩

/-- A record row used in concrete instantiations below. -/
def recordRow : List String :=
  ["2025-01-01 00:00:00.000", "Badge04", "1", "2", "3", "1,2,3"]

/-- Helper: once the stop flag is set, any session event other than a
sibling collection setup leaves the shared state unchanged: a
notification returns at the guard, and pressing ENTER again sets a flag
that is already true. A sibling setup, by contrast, clears the flag. -/
theorem applySessEvent_of_stop (st : SessionData) (h : st.stop_collection = true)
    (e : SessEvent) (hne : e ≠ SessEvent.siblingSetup) : applySessEvent st e = st := by
  cases e with
  | notify b ts p => simp [applySessEvent, notification_handler, h]
  | pressEnter =>
    rcases st with ⟨dc, rd, sc, cf⟩
    simp only at h
    subst h
    rfl
  | siblingSetup => exact absurd rfl hne

/-- Claim C1 counterexample: a payload whose UTF-8 decode fails leaves the
state (in particular the CSV file) unchanged, so zero log rows are
appended where the claim requires exactly one N/A row. -/
theorem malformed_payload_decode_failure_drops_row :
    notification_handler "Badge04" "2025-01-01 00:00:00.000"
      RawPayload.undecodable stIdle = stIdle ∧
    (notification_handler "Badge04" "2025-01-01 00:00:00.000"
      RawPayload.undecodable stIdle).csvFile = some [csvHeader] := ⟨rfl, rfl⟩

/-- Claim C1 (amended): when the stop flag is clear, a payload that decodes
to text with a comma-separated field count other than three appends exactly
one CSV row with the three numeric fields marked N/A and the raw text
preserved, without touching received_data; a payload that decodes to
exactly three fields appends exactly one CSV row carrying the stripped
field texts verbatim (no numeric validation) plus one received_data entry;
a payload whose UTF-8 decode fails appends no row at all; in every case
the handler returns normally, so no exception reaches the connection task. -/
theorem notification_handler_malformed_payload_behavior
    (badge ts : String) (st : SessionData) (h : st.stop_collection = false) :
    (∀ s : String, (splitComma s.data).length ≠ 3 →
      notification_handler badge ts (RawPayload.decoded s) st =
        ⟨st.device_counter, st.received_data, st.stop_collection,
          some (st.csvFile.getD [] ++ [[ts, badge, "N/A", "N/A", "N/A", s]])⟩) ∧
    (∀ s : String, ∀ v1 v2 v3 : List Char, splitComma s.data = [v1, v2, v3] →
      notification_handler badge ts (RawPayload.decoded s) st =
        ⟨st.device_counter,
          st.received_data ++
            [⟨ts, badge, s, String.mk (stripChars v1), String.mk (stripChars v2),
              String.mk (stripChars v3)⟩],
          st.stop_collection,
          some (st.csvFile.getD [] ++
            [[ts, badge, String.mk (stripChars v1), String.mk (stripChars v2),
              String.mk (stripChars v3), s]])⟩) ∧
    notification_handler badge ts RawPayload.undecodable st = st := by
  refine ⟨?_, ?_, ?_⟩
  · intro s hs
    rcases hsp : splitComma s.data with _ | ⟨a, _ | ⟨b, _ | ⟨c, _ | ⟨d, t⟩⟩⟩⟩
    · simp [notification_handler, h, hsp, save_to_csv]
    · simp [notification_handler, h, hsp, save_to_csv]
    · simp [notification_handler, h, hsp, save_to_csv]
    · exact absurd (by simp [hsp]) hs
    · simp [notification_handler, h, hsp, save_to_csv]
  · intro s v1 v2 v3 hsp
    simp [notification_handler, h, hsp, save_to_csv]
  · simp [notification_handler, h]

/-- Witness for the amended C1 theorem at the concrete one-field payload
of the specification example: the payload 42 yields exactly one row with
the three numeric fields N/A and Raw_Data 42. -/
theorem notification_handler_malformed_payload_witness :
    stIdle.stop_collection = false ∧
    notification_handler "Badge04" "t0" (RawPayload.decoded "42") stIdle =
      ⟨0, [], false, some [csvHeader, ["t0", "Badge04", "N/A", "N/A", "N/A", "42"]]⟩ := by
  refine ⟨rfl, ?_⟩
  have h := (notification_handler_malformed_payload_behavior "Badge04" "t0" stIdle
    rfl).1 "42" (by decide)
  exact h

/-- Claim C2 counterexample: after the file is externally removed, the
next append (save_to_csv opens in append mode) recreates the file holding
only the record row, so the produced log file does not begin with the
header row. -/
theorem append_after_removal_lacks_header :
    save_to_csv none recordRow = some [recordRow] ∧ recordRow ≠ csvHeader :=
  ⟨rfl, by decide⟩

/-- Claim C2 (amended): an append to a removed file succeeds and recreates
the file, but without the header row; only ensure_unified_csv_exists,
which runs at each device collection setup and not before each append,
recreates a missing file with the header; an existing file is left intact
by it, appends to an existing file keep its first row in place, and the
session-start initialization produces the lone header row. -/
theorem csv_recreation_behavior :
    (∀ row : List String, save_to_csv none row = some [row]) ∧
    ensure_unified_csv_exists none = some [csvHeader] ∧
    (∀ rows, ensure_unified_csv_exists (some rows) = some rows) ∧
    (∀ rows row, save_to_csv (some rows) row = some (rows ++ [row])) ∧
    (∀ row r t, ((save_to_csv (some (r :: t)) row).getD []).head? = some r) ∧
    init_unified_csv_file = some [csvHeader] :=
  ⟨fun _ => rfl, rfl, fun _ => rfl, fun _ _ => rfl, fun _ _ _ => rfl, rfl⟩

/-- Claim C7 counterexample: running the collection-phase entry of one
connection task on a state holding a sibling reading of Badge01 and a set
stop flag clears the shared received_data list and resets the stop flag,
contradicting the claim that sibling readings and the stop flag are left
unchanged. -/
theorem connection_setup_mutates_shared_state :
    (connectionRunSetup stStopped).received_data ≠ stStopped.received_data ∧
    (connectionRunSetup stStopped).stop_collection ≠ stStopped.stop_collection := by
  decide

/-- Claim C7 (amended): beyond its own connection state, counter increment
and summary line, a connection task has exactly these shared-state
effects: at collection-phase entry it resets the shared received_data
list to empty and the stop flag to false and ensures the CSV file exists,
leaving the finished-connect counter alone; and its notification handler
never changes the stop flag or the counter, preserves every entry already
in received_data, and appends at most one entry, always tagged with its
own badge name. -/
theorem connection_manager_frame_amended :
    (∀ st : SessionData,
      (connectionRunSetup st).device_counter = st.device_counter ∧
      (connectionRunSetup st).received_data = [] ∧
      (connectionRunSetup st).stop_collection = false ∧
      (connectionRunSetup st).csvFile = ensure_unified_csv_exists st.csvFile) ∧
    (∀ badge ts : String, ∀ p : RawPayload, ∀ st : SessionData,
      (notification_handler badge ts p st).device_counter = st.device_counter ∧
      (notification_handler badge ts p st).stop_collection = st.stop_collection ∧
      ((notification_handler badge ts p st).received_data = st.received_data ∨
        ∃ e : DataEntry, e.badge_name = badge ∧
          (notification_handler badge ts p st).received_data =
            st.received_data ++ [e])) := by
  constructor
  · intro st
    exact ⟨rfl, rfl, rfl, rfl⟩
  · intro badge ts p st
    by_cases hstop : st.stop_collection
    · simp [notification_handler, hstop]
    · cases p with
      | undecodable => simp [notification_handler, hstop]
      | decoded s =>
        rcases hsp : splitComma s.data with _ | ⟨a, _ | ⟨b, _ | ⟨c, _ | ⟨d, t⟩⟩⟩⟩ <;>
          simp [notification_handler, hstop, hsp, save_to_csv]

/-- Claim C8: an address is in the Discovery result exactly when it was
scanned and is a key of the registry; membership in the key set is
equivalent to the registry holding a name for the address. Hence every
non-registry device is excluded and every registry-known scanned device
is included. -/
theorem discovery_filters_registry (a : String) (devices : List String) :
    (a ∈ detected_badge_addresses devices ↔ a ∈ devices ∧ a ∈ badgeKeys) ∧
    (a ∈ badgeKeys ↔ ∃ nm, (a, nm) ∈ BADGE_ADDRESS) := by
  constructor
  · simp [detected_badge_addresses, List.mem_filter]
  · constructor
    · intro hmem
      rcases List.mem_map.mp hmem with ⟨⟨a2, nm⟩, hpair, hfst⟩
      exact ⟨nm, by simpa [← hfst] using hpair⟩
    · rintro ⟨nm, hpair⟩
      exact List.mem_map.mpr ⟨(a, nm), hpair, rfl⟩

/-- Claim C10 counterexample: from a stopped session state, a sibling
connection task still running its collection-phase setup clears the stop
flag, and a push notification arriving afterwards appends a log row: the
log grows from a push notification delivered after the stop signal, so
the claim as stated is false on this reachable interleaving. -/
theorem sibling_setup_unfreezes_ingestion :
    stStopped.stop_collection = true ∧
    stStopped.csvFile = some [csvHeader] ∧
    ([SessEvent.siblingSetup,
      SessEvent.notify "Badge04" "t1" (RawPayload.decoded "1,2,3")].foldl
        applySessEvent stStopped).csvFile =
      some [csvHeader, ["t1", "Badge04", "1", "2", "3", "1,2,3"]] := by
  refine ⟨rfl, rfl, ?_⟩
  decide

/-- Claim C10 (amended): a payload delivered to a notification handler
while the stop flag is set is discarded immediately: no log row is
appended and no in-memory entry is added. The flag, however, is not
latched: a sibling connection task that is still in its collection-phase
setup clears it again (and empties the in-memory list). Hence, once the
stop flag is set, the log and the in-memory readings are frozen against
push notifications exactly as long as no sibling collection setup
intervenes: for every event sequence free of setup events, the CSV file
and received_data stay unchanged and the flag stays set. -/
theorem stop_flag_freezes_ingestion_amended (st : SessionData)
    (h : st.stop_collection = true) (evs : List SessEvent)
    (hns : SessEvent.siblingSetup ∉ evs) :
    (evs.foldl applySessEvent st).csvFile = st.csvFile ∧
    (evs.foldl applySessEvent st).received_data = st.received_data ∧
    (evs.foldl applySessEvent st).stop_collection = true ∧
    (∀ b ts p, notification_handler b ts p st = st) := by
  have hfold : ∀ evs2 : List SessEvent, SessEvent.siblingSetup ∉ evs2 →
      evs2.foldl applySessEvent st = st := by
    intro evs2
    induction evs2 with
    | nil => intro _; rfl
    | cons e t ih =>
      intro hns2
      rw [List.foldl_cons, applySessEvent_of_stop st h e
        (fun he => hns2 (he ▸ List.mem_cons_self e t))]
      exact ih (fun hm => hns2 (List.mem_cons_of_mem e hm))
  rw [hfold evs hns]
  exact ⟨rfl, rfl, h, fun b ts p => by simp [notification_handler, h]⟩

/-- Witness for the amended C10 at a concrete stopped state and a
concrete setup-free event sequence containing a well-formed notification
and an ENTER press. -/
theorem stop_flag_freezes_ingestion_amended_witness :
    stStopped.stop_collection = true ∧
    SessEvent.siblingSetup ∉
      [SessEvent.notify "Badge04" "t1" (RawPayload.decoded "1,2,3"),
       SessEvent.pressEnter] ∧
    ([SessEvent.notify "Badge04" "t1" (RawPayload.decoded "1,2,3"),
      SessEvent.pressEnter].foldl applySessEvent stStopped).csvFile =
      stStopped.csvFile ∧
    ([SessEvent.notify "Badge04" "t1" (RawPayload.decoded "1,2,3"),
      SessEvent.pressEnter].foldl applySessEvent stStopped).stop_collection =
      true := by
  refine ⟨rfl, by decide, ?_, ?_⟩
  · exact (stop_flag_freezes_ingestion_amended stStopped rfl _ (by decide)).1
  · exact (stop_flag_freezes_ingestion_amended stStopped rfl _ (by decide)).2.2.1

/-- Parser mode of the CSV reader (the state of the csv module field scanner):
outside quotes, inside quotes, or just after a closing quote. -/
inductive PMode
  | unq
  | quo
  | quoEnd

/-- CSV field scanner over one serialized record, as the csv reader used by
read_latest_csv interprets it: commas separate fields, a quote toggles
quoted mode, and a doubled quote inside a quoted field is a literal quote. -/
def parseCSV : PMode → List Char → List Char → List (List Char)
  | _, acc, [] => [acc.reverse]
  | PMode.unq, acc, c :: t =>
    if c = ',' then acc.reverse :: parseCSV PMode.unq [] t
    else if c = '"' then parseCSV PMode.quo acc t
    else parseCSV PMode.unq (c :: acc) t
  | PMode.quo, acc, c :: t =>
    if c = '"' then parseCSV PMode.quoEnd acc t
    else parseCSV PMode.quo (c :: acc) t
  | PMode.quoEnd, acc, c :: t =>
    if c = ',' then acc.reverse :: parseCSV PMode.unq [] t
    else if c = '"' then parseCSV PMode.quo ('"' :: acc) t
    else parseCSV PMode.unq (c :: acc) t

/-- A field needs quoting when it holds the delimiter, the quote character
or a line terminator character (QUOTE_MINIMAL policy of csv.writer). -/
def needsQuote (cs : List Char) : Bool :=
  cs.any (fun c => c = ',' || c = '"' || c = '\n' || c = '\r')

/-- csv.writer escaping: every quote inside a quoted field is doubled. -/
def dubQuotes : List Char → List Char
  | [] => []
  | c :: t => if c = '"' then '"' :: '"' :: dubQuotes t else c :: dubQuotes t

/-- Serialize one field: quote and escape it exactly when needed. -/
def escField (cs : List Char) : List Char :=
  if needsQuote cs then '"' :: (dubQuotes cs ++ ['"']) else cs

/-- Serialize one record: escaped fields joined by commas (csv.writer
writerow, without the trailing line terminator). -/
def serRow : List (List Char) → List Char
  | [] => []
  | [f] => escField f
  | f :: fs => escField f ++ ',' :: serRow fs

/-- The textual CSV row that save_to_csv writes for a structured row. -/
def writeRow (fields : List String) : String :=
  String.mk (serRow (fields.map String.data))

/-- Parsing one textual CSV row back into its fields, as the csv reader
inside read_latest_csv does. -/
def parseRow (s : String) : List String :=
  (parseCSV PMode.unq [] s.data).map String.mk


/-- Helper: scanning an unquoted run free of commas and quotes just
accumulates it. -/
theorem parseCSV_unq_append (cs : List Char) : ∀ acc rest,
    (∀ c ∈ cs, c ≠ ',' ∧ c ≠ '"') →
    parseCSV PMode.unq acc (cs ++ rest) =
      parseCSV PMode.unq (cs.reverse ++ acc) rest := by
  induction cs with
  | nil => intro acc rest h; simp
  | cons c cs ih =>
    intro acc rest h
    have hc := h c (List.mem_cons_self c cs)
    simp only [List.cons_append, parseCSV, hc.1, hc.2, if_false, List.append_eq]
    rw [ih (c :: acc) rest (fun x hx => h x (List.mem_cons_of_mem c hx))]
    simp

/-- Helper: scanning the quote-doubled image of a field inside quotes
accumulates the original field and stops at the closing quote. -/
theorem parseCSV_quo_dub (cs : List Char) : ∀ acc rest,
    parseCSV PMode.quo acc (dubQuotes cs ++ '"' :: rest) =
      parseCSV PMode.quoEnd (cs.reverse ++ acc) rest := by
  induction cs with
  | nil => intro acc rest; simp [dubQuotes, parseCSV]
  | cons c cs ih =>
    intro acc rest
    by_cases hc : c = '"'
    · subst hc
      simp only [dubQuotes, if_pos rfl, List.cons_append, parseCSV, List.append_eq]
      norm_num
      rw [ih ('"' :: acc) rest]
      simp
    · simp only [dubQuotes, if_neg hc, List.cons_append, parseCSV, hc, if_false,
        List.append_eq]
      rw [ih (c :: acc) rest]
      simp

/-- Helper: one escaped field followed by a comma parses back to the field. -/
theorem escField_comma (f : List Char) (rest : List Char) :
    parseCSV PMode.unq [] (escField f ++ ',' :: rest) =
      f :: parseCSV PMode.unq [] rest := by
  by_cases hq : needsQuote f
  · have hsplit : escField f ++ ',' :: rest =
        '"' :: (dubQuotes f ++ '"' :: (',' :: rest)) := by
      simp [escField, hq, List.append_assoc]
    rw [hsplit]
    simp only [parseCSV]
    norm_num
    rw [parseCSV_quo_dub f [] (',' :: rest)]
    simp [parseCSV]
  · have hchars : ∀ c ∈ f, c ≠ ',' ∧ c ≠ '"' := by
      have hall : ∀ x ∈ f, ((¬x = ',' ∧ ¬x = '"') ∧ ¬x = '\n') ∧ ¬x = '\x0d' := by
        simpa [needsQuote] using hq
      intro c hc
      exact ⟨(hall c hc).1.1.1, (hall c hc).1.1.2⟩
    have hesc : escField f = f := by simp [escField, hq]
    rw [hesc, parseCSV_unq_append f [] (',' :: rest) hchars]
    simp [parseCSV]

/-- Helper: a final escaped field parses back to the field. -/
theorem escField_last (f : List Char) :
    parseCSV PMode.unq [] (escField f) = [f] := by
  by_cases hq : needsQuote f
  · have hsplit : escField f = '"' :: (dubQuotes f ++ '"' :: ([] : List Char)) := by
      simp [escField, hq]
    rw [hsplit]
    simp only [parseCSV]
    norm_num
    rw [parseCSV_quo_dub f [] []]
    simp [parseCSV]
  · have hchars : ∀ c ∈ f, c ≠ ',' ∧ c ≠ '"' := by
      have hall : ∀ x ∈ f, ((¬x = ',' ∧ ¬x = '"') ∧ ¬x = '\n') ∧ ¬x = '\x0d' := by
        simpa [needsQuote] using hq
      intro c hc
      exact ⟨(hall c hc).1.1.1, (hall c hc).1.1.2⟩
    have hesc : escField f = f := by simp [escField, hq]
    rw [hesc, show f = f ++ ([] : List Char) by simp,
      parseCSV_unq_append f [] [] hchars]
    simp [parseCSV]

/-- Helper: a nonempty serialized record parses back to its field list. -/
theorem serRow_roundtrip : ∀ fs : List (List Char), fs ≠ [] →
    parseCSV PMode.unq [] (serRow fs) = fs := by
  intro fs
  induction fs with
  | nil => intro h; exact absurd rfl h
  | cons f fs ih =>
    intro _
    cases fs with
    | nil => exact escField_last f
    | cons f2 fs2 =>
      rw [show serRow (f :: f2 :: fs2) = escField f ++ ',' :: serRow (f2 :: fs2)
        from rfl]
      rw [escField_comma f (serRow (f2 :: fs2))]
      rw [ih (List.cons_ne_nil f2 fs2)]

/-- Helper: converting strings to character lists and back is the
identity. -/
theorem mapmk (l : List String) : (l.map String.data).map String.mk = l := by
  induction l with
  | nil => rfl
  | cons s t ih => simp only [List.map_cons, ih]

/-- Claim C9: every log row of the shape the ingestion pipeline appends
(timestamp, badge name, three field values, raw payload text, with the
raw text free to hold commas, quotes or newlines) parses back from its
serialized CSV form into exactly the same six fields: same device name,
same field values, same raw text. -/
theorem log_row_roundtrip (ts name v1 v2 v3 raw : String) :
    parseRow (writeRow [ts, name, v1, v2, v3, raw]) = [ts, name, v1, v2, v3, raw] := by
  unfold parseRow writeRow
  rw [show (String.mk (serRow ([ts, name, v1, v2, v3, raw].map String.data))).data =
      serRow ([ts, name, v1, v2, v3, raw].map String.data) from rfl]
  rw [serRow_roundtrip _ (by simp)]
  exact mapmk _

/-- Events performed by one connection task (connection_run) as far as the
shared session state is concerned: a connect attempt with its timeout, the
inter-attempt sleep with its duration, the increment of the shared
device_counter, passing the busy-wait start barrier, and subscribing to
the data characteristic. -/
inductive CEvent
  | attempt (timeout : Nat)
  | delay (t : Nat)
  | incr
  | barrier
  | subscribe
deriving DecidableEq

/-- The initial-connect retry loop of connection_run, driven by an oracle
giving the outcome of each attempt (failure covers both a clean
non-connect and a raised exception, which the source treats alike). Called
with the number of attempts remaining; each attempt carries timeout 10,
and a failed attempt that still has retries left is followed by a sleep of
2 before the next one. Returns the emitted events and whether the
connection was established. -/
def connectLoop (o : Nat → Bool) : Nat → Nat → List CEvent × Bool
  | _, 0 => ([], false)
  | k, rem + 1 =>
    if o k then ([CEvent.attempt 10], true)
    else if rem = 0 then ([CEvent.attempt 10], false)
    else
      let r := connectLoop o (k + 1) rem
      (CEvent.attempt 10 :: CEvent.delay 2 :: r.1, r.2)

/-- The shared-state event program of one connection task: the retry loop,
then exactly one device_counter increment regardless of outcome, then (only
when connected) the barrier wait followed by the subscription; a failed
device returns before the barrier. -/
def connProgram (o : Nat → Bool) : List CEvent :=
  (connectLoop o 0 3).1 ++
    CEvent.incr ::
      (if (connectLoop o 0 3).2 then [CEvent.barrier, CEvent.subscribe] else [])

/-- The shared session state seen by the barrier logic: the finished-connect
counter and the remaining event program of every connection task. -/
structure SessState where
  device_counter : Nat
  progs : List (List CEvent)

/-- Effect of one connection-task event on the shared counter. -/
def applyCE (c : Nat) : CEvent → Nat
  | CEvent.incr => c + 1
  | _ => c

/-- Enabling condition of an event: the busy-wait loop before the barrier
only terminates once the counter has reached the total device count;
every other event is always enabled. -/
def guardCE (total c : Nat) : CEvent → Prop
  | CEvent.barrier => total ≤ c
  | _ => True

/-- One interleaving step of the cooperative scheduler: some task whose
next event is enabled performs it. -/
inductive SessStep (total : Nat) : SessState → SessState → Prop
  | mk (s : SessState) (i : Nat) (e : CEvent) (rest : List CEvent)
      (hp : s.progs.get? i = some (e :: rest))
      (hg : guardCE total s.device_counter e) :
      SessStep total s ⟨applyCE s.device_counter e, s.progs.set i rest⟩

/-- Session start: counter zero, one connection program per detected
device, one oracle per device. -/
def initSess (os : List (Nat → Bool)) : SessState :=
  ⟨0, os.map connProgram⟩

/-- Reachability of a session state from the session start by
interleaving steps; the barrier total is the number of detected devices. -/
def Reach (os : List (Nat → Bool)) (s : SessState) : Prop :=
  Relation.ReflTransGen (SessStep os.length) (initSess os) s

/-- Recognizer for connect-attempt events. -/
def isAtt : CEvent → Bool
  | CEvent.attempt _ => true
  | _ => false

/-- Recognizer for counter-increment events. -/
def isIncr : CEvent → Bool
  | CEvent.incr => true
  | _ => false

/-- Recognizer for subscription events. -/
def isSub : CEvent → Bool
  | CEvent.subscribe => true
  | _ => false

/-- Recognizer for barrier events. -/
def isBar : CEvent → Bool
  | CEvent.barrier => true
  | _ => false

/-- Number of counter increments a program still holds. -/
def incrCount (p : List CEvent) : Nat := p.countP isIncr

/-- Helper: lookup in a mapped list. -/
theorem getq_map {α β : Type} (f : α → β) : ∀ (l : List α) (i : Nat),
    (l.map f).get? i = (l.get? i).map f := by
  intro l
  induction l with
  | nil => intro i; cases i <;> rfl
  | cons a t ih =>
    intro i
    cases i with
    | zero => rfl
    | succ i => exact ih i

/-- Helper: setting one index leaves the others unchanged. -/
theorem getq_set_ne {α : Type} : ∀ (l : List α) (i j : Nat) (a : α), i ≠ j →
    (l.set i a).get? j = l.get? j := by
  intro l
  induction l with
  | nil => intro i j a h; rfl
  | cons x t ih =>
    intro i j a h
    cases i with
    | zero =>
      cases j with
      | zero => exact absurd rfl h
      | succ j => rfl
    | succ i =>
      cases j with
      | zero => rfl
      | succ j => exact ih i j a (fun he => h (by rw [he]))

/-- Helper: lookup at a freshly set index. -/
theorem getq_set_eq {α : Type} : ∀ (l : List α) (i : Nat) (a : α), i < l.length →
    (l.set i a).get? i = some a := by
  intro l
  induction l with
  | nil => intro i a h; simp at h
  | cons x t ih =>
    intro i a h
    cases i with
    | zero => rfl
    | succ i => exact ih i a (Nat.lt_of_succ_lt_succ h)

/-- Helper: how the sum of a mapped list changes when one entry is
replaced. -/
theorem summap_set {α : Type} (f : α → Nat) : ∀ (l : List α) (i : Nat) (x y : α),
    l.get? i = some x →
    ((l.set i y).map f).sum + f x = (l.map f).sum + f y := by
  intro l
  induction l with
  | nil => intro i x y h; simp at h
  | cons a t ih =>
    intro i x y h
    cases i with
    | zero =>
      have hx : a = x := by simpa using h
      subst hx
      simp only [List.set_cons_zero, List.map_cons, List.sum_cons]
      omega
    | succ i =>
      have hrec := ih i x y h
      simp only [List.set_cons_succ, List.map_cons, List.sum_cons]
      omega

/-- Helper: each entry contributes at most the sum. -/
theorem mem_le_summap {α : Type} (f : α → Nat) (x : α) : ∀ l : List α,
    x ∈ l → f x ≤ (l.map f).sum := by
  intro l
  induction l with
  | nil => intro h; simp at h
  | cons a t ih =>
    intro h
    rcases List.mem_cons.mp h with h | h
    · subst h; simp
    · have := ih h; simp; omega

/-- Helper: a sum of zeros is zero. -/
theorem summap_eq_zero {α : Type} (f : α → Nat) : ∀ l : List α,
    (∀ x ∈ l, f x = 0) → (l.map f).sum = 0 := by
  intro l
  induction l with
  | nil => intro h; rfl
  | cons a t ih =>
    intro h
    simp [h a (List.mem_cons_self a t),
      ih (fun x hx => h x (List.mem_cons_of_mem a hx))]

/-- Helper: a sum of ones is the length. -/
theorem summap_one {α : Type} : ∀ l : List α,
    (l.map (fun _ => (1 : Nat))).sum = l.length := by
  intro l
  induction l with
  | nil => rfl
  | cons a t ih => simp [ih]; omega

/-- Helper: two decompositions of a list around a single occurrence of an
element coincide. -/
theorem append_single_occ {α : Type} [DecidableEq α] (x : α) :
    ∀ (t F l G : List α), x ∉ t → x ∉ F → t ++ x :: l = F ++ x :: G →
    t = F ∧ l = G := by
  intro t
  induction t with
  | nil =>
    intro F l G hxt hxF heq
    cases F with
    | nil => simpa using heq
    | cons f F2 =>
      exfalso
      rw [List.nil_append, List.cons_append] at heq
      have hxf : x = f := ((List.cons.injEq _ _ _ _).mp heq).1
      exact hxF (hxf ▸ List.mem_cons_self f F2)
  | cons a t2 ih =>
    intro F l G hxt hxF heq
    cases F with
    | nil =>
      exfalso
      rw [List.cons_append, List.nil_append] at heq
      have hax : a = x := ((List.cons.injEq _ _ _ _).mp heq).1
      exact hxt (hax ▸ List.mem_cons_self a t2)
    | cons f F2 =>
      rw [List.cons_append, List.cons_append] at heq
      obtain ⟨rfl, heq2⟩ := (List.cons.injEq _ _ _ _).mp heq
      have := ih F2 l G (fun hm => hxt (List.mem_cons_of_mem _ hm))
        (fun hm => hxF (List.mem_cons_of_mem _ hm)) heq2
      exact ⟨by rw [this.1], this.2⟩

/-- The retry loop emits only connect attempts with timeout 10 and sleeps
of duration 2. -/
theorem connectLoop_events (o : Nat → Bool) : ∀ n k, ∀ e ∈ (connectLoop o k n).1,
    e = CEvent.attempt 10 ∨ e = CEvent.delay 2 := by
  intro n
  induction n with
  | zero => intro k e he; simp [connectLoop] at he
  | succ n ih =>
    intro k e he
    by_cases h0 : o k
    · simp [connectLoop, h0] at he
      left; exact he
    · by_cases h1 : n = 0
      · subst h1
        simp [connectLoop, h0] at he
        left; exact he
      · simp [connectLoop, h0, h1] at he
        rcases he with he | he | he
        · left; exact he
        · right; exact he
        · exact ih (k + 1) e he

/-- Every connection program increments the shared counter exactly once,
whether or not the connection succeeded. -/
theorem connProgram_count_incr (o : Nat → Bool) : incrCount (connProgram o) = 1 := by
  have h0 : (connectLoop o 0 3).1.countP isIncr = 0 := by
    rw [List.countP_eq_zero]
    intro e hmem
    rcases connectLoop_events o 3 0 e hmem with h | h <;> subst h <;> decide
  unfold connProgram incrCount
  rw [List.countP_append, h0]
  cases hok : (connectLoop o 0 3).2 <;> simp [List.countP_cons, isIncr]

/-- The retry loop makes at most as many attempts as it has remaining. -/
theorem connectLoop_att_le (o : Nat → Bool) : ∀ n k,
    (connectLoop o k n).1.countP isAtt ≤ n := by
  intro n
  induction n with
  | zero => intro k; simp [connectLoop]
  | succ n ih =>
    intro k
    by_cases h0 : o k
    · simp [connectLoop, h0, List.countP_cons, isAtt]
    · by_cases h1 : n = 0
      · subst h1; simp [connectLoop, h0, List.countP_cons, isAtt]
      · simp [connectLoop, h0, h1, List.countP_cons, isAtt]
        have := ih (k + 1)
        omega

/-- A program that subscribes also waits at the barrier. -/
theorem barrier_mem_of_subscribe (o : Nat → Bool) :
    CEvent.subscribe ∈ connProgram o → CEvent.barrier ∈ connProgram o := by
  intro h
  by_cases hok : (connectLoop o 0 3).2
  · simp [connProgram, hok]
  · exfalso
    simp [connProgram, hok] at h
    rcases connectLoop_events o 3 0 _ h with h2 | h2 <;> simp at h2

/-- A program suffix headed by the subscription is the final event: nothing
of the modelled shared-state program follows it. -/
theorem suffix_subscribe (o : Nat → Bool) (l : List CEvent) :
    (CEvent.subscribe :: l) <:+ connProgram o → l = [] := by
  intro hsuf
  by_cases hok : (connectLoop o 0 3).2
  · obtain ⟨t, ht⟩ := hsuf
    have hform : connProgram o =
        ((connectLoop o 0 3).1 ++ [CEvent.incr, CEvent.barrier]) ++
          CEvent.subscribe :: [] := by
      simp [connProgram, hok]
    rw [hform] at ht
    have hnF : CEvent.subscribe ∉
        (connectLoop o 0 3).1 ++ [CEvent.incr, CEvent.barrier] := by
      intro hmem
      rcases List.mem_append.mp hmem with hm | hm
      · rcases connectLoop_events o 3 0 _ hm with h2 | h2 <;> simp at h2
      · simp at hm
    have hF0 : ((connectLoop o 0 3).1 ++
        [CEvent.incr, CEvent.barrier]).countP isSub = 0 := by
      rw [List.countP_eq_zero]
      intro e he
      rcases List.mem_append.mp he with hm | hm
      · rcases connectLoop_events o 3 0 _ hm with h2 | h2 <;> subst h2 <;> decide
      · simp at hm
        rcases hm with h2 | h2 <;> subst h2 <;> decide
    have hcount := congrArg (List.countP isSub) ht
    rw [List.countP_append, List.countP_append, hF0, List.countP_cons,
      List.countP_cons] at hcount
    simp [isSub] at hcount
    have hnt : CEvent.subscribe ∉ t := by
      intro hmem
      have h1 : 0 < t.countP isSub := List.countP_pos_iff.mpr ⟨_, hmem, by decide⟩
      omega
    exact (append_single_occ CEvent.subscribe t _ l [] hnt hnF ht).2
  · exfalso
    have hmem : CEvent.subscribe ∈ connProgram o :=
      hsuf.subset (List.mem_cons_self _ _)
    simp [connProgram, hok] at hmem
    rcases connectLoop_events o 3 0 _ hmem with h2 | h2 <;> simp at h2

/-- A program suffix headed by the barrier consists of the barrier followed
only by the subscription. -/
theorem suffix_barrier (o : Nat → Bool) (l : List CEvent) :
    (CEvent.barrier :: l) <:+ connProgram o → l = [CEvent.subscribe] := by
  intro hsuf
  by_cases hok : (connectLoop o 0 3).2
  · obtain ⟨t, ht⟩ := hsuf
    have hform : connProgram o =
        ((connectLoop o 0 3).1 ++ [CEvent.incr]) ++
          CEvent.barrier :: [CEvent.subscribe] := by
      simp [connProgram, hok]
    rw [hform] at ht
    have hnF : CEvent.barrier ∉ (connectLoop o 0 3).1 ++ [CEvent.incr] := by
      intro hmem
      rcases List.mem_append.mp hmem with hm | hm
      · rcases connectLoop_events o 3 0 _ hm with h2 | h2 <;> simp at h2
      · simp at hm
    have hF0 : ((connectLoop o 0 3).1 ++ [CEvent.incr]).countP isBar = 0 := by
      rw [List.countP_eq_zero]
      intro e he
      rcases List.mem_append.mp he with hm | hm
      · rcases connectLoop_events o 3 0 _ hm with h2 | h2 <;> subst h2 <;> decide
      · simp at hm
        subst hm
        decide
    have hcount := congrArg (List.countP isBar) ht
    rw [List.countP_append, List.countP_append, hF0, List.countP_cons,
      List.countP_cons] at hcount
    simp [isBar] at hcount
    have hnt : CEvent.barrier ∉ t := by
      intro hmem
      have h1 : 0 < t.countP isBar := List.countP_pos_iff.mpr ⟨_, hmem, by decide⟩
      omega
    exact (append_single_occ CEvent.barrier t _ l [CEvent.subscribe] hnt hnF ht).2
  · exfalso
    have hmem : CEvent.barrier ∈ connProgram o :=
      hsuf.subset (List.mem_cons_self _ _)
    simp [connProgram, hok] at hmem
    rcases connectLoop_events o 3 0 _ hmem with h2 | h2 <;> simp at h2

/-- The inductive session invariant: programs only shrink to suffixes of
their original, the counter plus the pending increments equals the device
total, and a task that still subscribes has either not passed the barrier
or the counter is already at the total. -/
structure SessInv (os : List (Nat → Bool)) (s : SessState) : Prop where
  len : s.progs.length = os.length
  suffix : ∀ i p o, s.progs.get? i = some p → os.get? i = some o →
    p <:+ connProgram o
  count : s.device_counter + (s.progs.map incrCount).sum = os.length
  sub : ∀ i p, s.progs.get? i = some p → CEvent.subscribe ∈ p →
    CEvent.barrier ∈ p ∨ s.device_counter = os.length

/-- Helper: only the increment event changes the counter. -/
theorem applyCE_of_ne_incr (c : Nat) (e : CEvent) (h : e ≠ CEvent.incr) :
    applyCE c e = c := by
  cases e <;> first | rfl | exact absurd rfl h

/-- Helper: every event except the barrier is always enabled. -/
theorem guardCE_of_ne (t c : Nat) (e : CEvent) (h : e ≠ CEvent.barrier) :
    guardCE t c e := by
  cases e <;> trivial

/-- The invariant holds at session start. -/
theorem sessInv_init (os : List (Nat → Bool)) : SessInv os (initSess os) := by
  refine ⟨by simp [initSess], ?_, ?_, ?_⟩
  · intro i p o hp ho
    rw [show (initSess os).progs = os.map connProgram from rfl, getq_map connProgram os i,
      ho] at hp
    have : connProgram o = p := by simpa using hp
    rw [← this]
  · rw [show (initSess os).progs = os.map connProgram from rfl]
    rw [List.map_map]
    have hcg : os.map (incrCount ∘ connProgram) = os.map (fun _ => 1) := by
      apply List.map_congr_left
      intro o ho
      exact connProgram_count_incr o
    rw [hcg, summap_one]
    simp [initSess]
  · intro i p hp hsub
    left
    rw [show (initSess os).progs = os.map connProgram from rfl,
      getq_map connProgram os i] at hp
    rcases ho : os.get? i with _ | o
    · rw [ho] at hp; simp at hp
    · rw [ho] at hp
      have : connProgram o = p := by simpa using hp
      subst this
      exact barrier_mem_of_subscribe o hsub

/-- The invariant is preserved by every interleaving step. -/
theorem sessInv_step {os : List (Nat → Bool)} {s s2 : SessState}
    (hinv : SessInv os s) (hstep : SessStep os.length s s2) : SessInv os s2 := by
  obtain ⟨i, e, rest, hp, hg⟩ := hstep
  have hilen : i < s.progs.length := by
    rcases List.get?_eq_some.mp hp with ⟨hlt, _⟩
    exact hlt
  refine ⟨?_, ?_, ?_, ?_⟩
  · simpa [List.length_set] using hinv.len
  · intro j p o hpj ho
    by_cases hij : i = j
    · subst hij
      rw [getq_set_eq s.progs i rest hilen] at hpj
      have hpr : rest = p := by simpa using hpj
      subst hpr
      exact (List.suffix_cons e rest).trans (hinv.suffix i _ o hp ho)
    · rw [getq_set_ne s.progs i j rest hij] at hpj
      exact hinv.suffix j p o hpj ho
  · have hsum := summap_set incrCount s.progs i (e :: rest) rest hp
    have hc := hinv.count
    cases e with
    | incr =>
      have h2 : incrCount (CEvent.incr :: rest) = incrCount rest + 1 := by
        simp [incrCount, List.countP_cons, isIncr]
      rw [h2] at hsum
      show s.device_counter + 1 +
        ((s.progs.set i rest).map incrCount).sum = os.length
      omega
    | attempt t0 =>
      have h2 : incrCount (CEvent.attempt t0 :: rest) = incrCount rest := by
        simp [incrCount, List.countP_cons, isIncr]
      rw [h2] at hsum
      show s.device_counter +
        ((s.progs.set i rest).map incrCount).sum = os.length
      omega
    | delay t0 =>
      have h2 : incrCount (CEvent.delay t0 :: rest) = incrCount rest := by
        simp [incrCount, List.countP_cons, isIncr]
      rw [h2] at hsum
      show s.device_counter +
        ((s.progs.set i rest).map incrCount).sum = os.length
      omega
    | barrier =>
      have h2 : incrCount (CEvent.barrier :: rest) = incrCount rest := by
        simp [incrCount, List.countP_cons, isIncr]
      rw [h2] at hsum
      show s.device_counter +
        ((s.progs.set i rest).map incrCount).sum = os.length
      omega
    | subscribe =>
      have h2 : incrCount (CEvent.subscribe :: rest) = incrCount rest := by
        simp [incrCount, List.countP_cons, isIncr]
      rw [h2] at hsum
      show s.device_counter +
        ((s.progs.set i rest).map incrCount).sum = os.length
      omega
  · intro j p hpj hsubmem
    by_cases hebar : e = CEvent.barrier
    · subst hebar
      right
      have hge : os.length ≤ s.device_counter := hg
      have hle : s.device_counter ≤ os.length := by
        have := hinv.count; omega
      show applyCE s.device_counter CEvent.barrier = os.length
      rw [applyCE_of_ne_incr _ _ (by intro h2; cases h2)]
      omega
    · by_cases hcN : s.device_counter = os.length
      · right
        have heincr : e ≠ CEvent.incr := by
          intro he
          subst he
          have hmem : (CEvent.incr :: rest) ∈ s.progs := List.get?_mem hp
          have hle2 : incrCount (CEvent.incr :: rest) ≤
              (s.progs.map incrCount).sum := mem_le_summap incrCount _ _ hmem
          have h1 : 1 ≤ incrCount (CEvent.incr :: rest) := by
            simp [incrCount, List.countP_cons, isIncr]
          have := hinv.count
          omega
        show applyCE s.device_counter e = os.length
        rw [applyCE_of_ne_incr _ _ heincr]
        exact hcN
      · by_cases hij : i = j
        · subst hij
          rw [getq_set_eq s.progs i rest hilen] at hpj
          have hpr : rest = p := by simpa using hpj
          subst hpr
          have hold := hinv.sub i (e :: rest) hp (List.mem_cons_of_mem e hsubmem)
          rcases hold with hb | hcn
          · left
            rcases List.mem_cons.mp hb with hbe | hbr
            · exact absurd hbe.symm hebar
            · exact hbr
          · exact absurd hcn hcN
        · rw [getq_set_ne s.progs i j rest hij] at hpj
          rcases hinv.sub j p hpj hsubmem with hb | hcn
          · left; exact hb
          · exact absurd hcn hcN

/-- The invariant holds in every reachable session state. -/
theorem sessInv_reach {os : List (Nat → Bool)} {s : SessState}
    (h : Reach os s) : SessInv os s := by
  induction h with
  | refl => exact sessInv_init os
  | tail hr hstep ih => exact sessInv_step ih hstep

/-- When every program has run to completion the counter equals the device
total. -/
theorem all_empty_final {os : List (Nat → Bool)} {s : SessState}
    (hr : Reach os s) (hall : ∀ p ∈ s.progs, p = []) :
    s.device_counter = os.length := by
  have hinv := sessInv_reach hr
  have hz : (s.progs.map incrCount).sum = 0 := by
    apply summap_eq_zero
    intro p hp
    rw [hall p hp]
    rfl
  have := hinv.count
  omega

/-- From any reachable state the session can run to completion: no device
outcome, including exhausted retries, blocks the barrier or aborts the
sibling tasks. -/
theorem session_completes_aux : ∀ (n : Nat) (os : List (Nat → Bool)) (s : SessState),
    Reach os s → (s.progs.map List.length).sum ≤ n →
    ∃ s2, Reach os s2 ∧ s2.device_counter = os.length ∧ ∀ p ∈ s2.progs, p = [] := by
  intro n
  induction n with
  | zero =>
    intro os s hr hsum
    have hall : ∀ p ∈ s.progs, p = [] := by
      intro p hp
      have hle := mem_le_summap List.length p s.progs hp
      exact List.length_eq_zero.mp (by omega)
    exact ⟨s, hr, all_empty_final hr hall, hall⟩
  | succ n ih =>
    intro os s hr hsum
    by_cases hdone : ∀ p ∈ s.progs, p = []
    · exact ⟨s, hr, all_empty_final hr hdone, hdone⟩
    · push_neg at hdone
      obtain ⟨p0, hp0mem, hp0ne⟩ := hdone
      obtain ⟨i, hpi⟩ := List.mem_iff_get?.mp hp0mem
      obtain ⟨e, rest, rfl⟩ : ∃ e rest, p0 = e :: rest := by
        cases p0 with
        | nil => exact absurd rfl hp0ne
        | cons e rest => exact ⟨e, rest, rfl⟩
      by_cases hhead : ∃ j e2 rest2, s.progs.get? j = some (e2 :: rest2) ∧
          e2 ≠ CEvent.barrier
      · obtain ⟨j, e2, rest2, hpj, hne⟩ := hhead
        have hstep : SessStep os.length s
            ⟨applyCE s.device_counter e2, s.progs.set j rest2⟩ :=
          SessStep.mk s j e2 rest2 hpj (guardCE_of_ne _ _ _ hne)
        have hr2 : Reach os ⟨applyCE s.device_counter e2, s.progs.set j rest2⟩ :=
          Relation.ReflTransGen.tail hr hstep
        have hsum2 : (((s.progs.set j rest2)).map List.length).sum ≤ n := by
          have := summap_set List.length s.progs j (e2 :: rest2) rest2 hpj
          simp only [List.length_cons] at this
          omega
        exact ih os _ hr2 hsum2
      · push_neg at hhead
        have hinv := sessInv_reach hr
        have hz : (s.progs.map incrCount).sum = 0 := by
          apply summap_eq_zero
          intro q hq
          cases q with
          | nil => rfl
          | cons eq2 restq =>
            obtain ⟨jq, hjq⟩ := List.mem_iff_get?.mp hq
            have heb := hhead jq eq2 restq hjq
            subst heb
            have hlenq : jq < s.progs.length := by
              rcases List.get?_eq_some.mp hjq with ⟨hlt, _⟩
              exact hlt
            have hlenq2 : jq < os.length := by
              have := hinv.len; omega
            obtain ⟨o, ho⟩ : ∃ o, os.get? jq = some o :=
              ⟨os.get ⟨jq, hlenq2⟩, List.get?_eq_get hlenq2⟩
            have hsuf := hinv.suffix jq _ o hjq ho
            have hrq := suffix_barrier o restq hsuf
            subst hrq
            rfl
        have hcN : s.device_counter = os.length := by
          have := hinv.count; omega
        have heb := hhead i e rest hpi
        subst heb
        have hstep : SessStep os.length s
            ⟨applyCE s.device_counter CEvent.barrier, s.progs.set i rest⟩ :=
          SessStep.mk s i CEvent.barrier rest hpi (by
            show os.length ≤ s.device_counter
            omega)
        have hr2 : Reach os ⟨applyCE s.device_counter CEvent.barrier,
            s.progs.set i rest⟩ := Relation.ReflTransGen.tail hr hstep
        have hsum2 : (((s.progs.set i rest)).map List.length).sum ≤ n := by
          have := summap_set List.length s.progs i (CEvent.barrier :: rest) rest hpi
          simp only [List.length_cons] at this
          omega
        exact ih os _ hr2 hsum2

/-- Every session, for every assignment of per-device connect outcomes,
can run to a state where all connection tasks have finished and the
counter equals the device total. -/
theorem session_completes (os : List (Nat → Bool)) :
    ∃ s2, Reach os s2 ∧ s2.device_counter = os.length ∧
      ∀ p ∈ s2.progs, p = [] :=
  session_completes_aux (((initSess os).progs.map List.length).sum) os
    (initSess os) Relation.ReflTransGen.refl (Nat.le_refl _)

/-- Oracle of a device whose first connect attempt succeeds. -/
def oracleTrue : Nat → Bool := fun _ => true

/-- Oracle of a device whose connect attempts all fail. -/
def oracleFalse : Nat → Bool := fun _ => false

/-- A concrete reachable state of a one-device session: the attempt
succeeded and the counter was incremented; the barrier is next. -/
theorem reach_ex2 : Reach [oracleTrue] ⟨1, [[CEvent.barrier, CEvent.subscribe]]⟩ := by
  have h1 : SessStep 1 (initSess [oracleTrue])
      ⟨0, [[CEvent.incr, CEvent.barrier, CEvent.subscribe]]⟩ :=
    SessStep.mk _ 0 (CEvent.attempt 10)
      [CEvent.incr, CEvent.barrier, CEvent.subscribe] rfl trivial
  have h2 : SessStep 1 (⟨0, [[CEvent.incr, CEvent.barrier, CEvent.subscribe]]⟩ : SessState)
      ⟨1, [[CEvent.barrier, CEvent.subscribe]]⟩ :=
    SessStep.mk _ 0 CEvent.incr [CEvent.barrier, CEvent.subscribe] rfl trivial
  exact Relation.ReflTransGen.tail
    (Relation.ReflTransGen.tail Relation.ReflTransGen.refl h1) h2

/-- A concrete reachable state of a one-device session: the barrier has
been passed; the subscription is next. -/
theorem reach_ex3 : Reach [oracleTrue] ⟨1, [[CEvent.subscribe]]⟩ := by
  have h3 : SessStep 1 (⟨1, [[CEvent.barrier, CEvent.subscribe]]⟩ : SessState)
      ⟨1, [[CEvent.subscribe]]⟩ :=
    SessStep.mk _ 0 CEvent.barrier [CEvent.subscribe] rfl (Nat.le_refl 1)
  exact Relation.ReflTransGen.tail reach_ex2 h3

/-- Claim C3: every connection task increments the shared finished-connect
counter exactly once whether its connection succeeded or exhausted its
retries; in every reachable session state the counter never exceeds the
number of devices Discovery reported; and whenever the barrier releases
(the counter has reached the total) the counter equals that number
exactly. -/
theorem barrier_counter_exact (os : List (Nat → Bool)) (s : SessState)
    (h : Reach os s) :
    (∀ o : Nat → Bool, incrCount (connProgram o) = 1) ∧
    s.device_counter ≤ os.length ∧
    (os.length ≤ s.device_counter → s.device_counter = os.length) := by
  have hinv := sessInv_reach h
  refine ⟨connProgram_count_incr, ?_, ?_⟩
  · have := hinv.count; omega
  · intro hge; have := hinv.count; omega

/-- Witness for C3 at a concrete reachable one-device state whose counter
has reached the barrier threshold. -/
theorem barrier_counter_exact_witness :
    (⟨1, [[CEvent.barrier, CEvent.subscribe]]⟩ : SessState).device_counter =
      [oracleTrue].length :=
  (barrier_counter_exact [oracleTrue] _ reach_ex2).2.2 (Nat.le_refl 1)

/-- Claim C4: in every reachable session state in which some connection
task is about to subscribe (its next event is the subscription), the
finished-connect counter equals the total number of discovered devices:
no task reaches subscribed ingestion before every sibling resolved its
initial connect attempt. -/
theorem subscribe_only_after_release (os : List (Nat → Bool)) (s : SessState)
    (h : Reach os s) (i : Nat) (rest : List CEvent)
    (hp : s.progs.get? i = some (CEvent.subscribe :: rest)) :
    s.device_counter = os.length := by
  have hinv := sessInv_reach h
  rcases hinv.sub i _ hp (List.mem_cons_self _ _) with hbar | hcn
  · exfalso
    have hlen : i < s.progs.length := by
      rcases List.get?_eq_some.mp hp with ⟨hlt, _⟩
      exact hlt
    have hlen2 : i < os.length := by have := hinv.len; omega
    obtain ⟨o, ho⟩ : ∃ o, os.get? i = some o :=
      ⟨os.get ⟨i, hlen2⟩, List.get?_eq_get hlen2⟩
    have hrest := suffix_subscribe o rest (hinv.suffix i _ o hp ho)
    subst hrest
    rcases List.mem_cons.mp hbar with hb | hb
    · simp at hb
    · simp at hb
  · exact hcn

/-- Witness for C4 at a concrete reachable one-device state whose next
event is the subscription. -/
theorem subscribe_only_after_release_witness :
    (⟨1, [[CEvent.subscribe]]⟩ : SessState).device_counter = [oracleTrue].length :=
  subscribe_only_after_release [oracleTrue] _ reach_ex3 0 [] rfl

/-- Claim C5: the initial connection is attempted at most 3 times, every
attempt carries timeout 10 and every inter-attempt sleep lasts 2; a device
whose three attempts all fail produces exactly attempt, sleep, attempt,
sleep, attempt and ends unconnected, never subscribes, yet still
increments the shared counter exactly once; and for every assignment of
outcomes the session still runs to completion, so one device exhausting
its retries aborts neither its siblings nor the session. -/
theorem connect_retry_policy (o : Nat → Bool) :
    (connectLoop o 0 3).1.countP isAtt ≤ 3 ∧
    (∀ e ∈ (connectLoop o 0 3).1,
      e = CEvent.attempt 10 ∨ e = CEvent.delay 2) ∧
    ((∀ k, k < 3 → o k = false) →
      connectLoop o 0 3 =
        ([CEvent.attempt 10, CEvent.delay 2, CEvent.attempt 10, CEvent.delay 2,
          CEvent.attempt 10], false) ∧
      CEvent.subscribe ∉ connProgram o ∧
      incrCount (connProgram o) = 1) ∧
    (∀ os : List (Nat → Bool), ∃ s2, Reach os s2 ∧
      s2.device_counter = os.length ∧ ∀ p ∈ s2.progs, p = []) := by
  refine ⟨connectLoop_att_le o 3 0, connectLoop_events o 3 0, ?_, session_completes⟩
  intro hfail
  have hshape : connectLoop o 0 3 =
      ([CEvent.attempt 10, CEvent.delay 2, CEvent.attempt 10, CEvent.delay 2,
        CEvent.attempt 10], false) := by
    simp [connectLoop, hfail 0 (by omega), hfail 1 (by omega), hfail 2 (by omega)]
  refine ⟨hshape, ?_, connProgram_count_incr o⟩
  simp [connProgram, hshape]

/-- Witness for C5 at the all-failures oracle. -/
theorem connect_retry_policy_witness :
    connectLoop oracleFalse 0 3 =
      ([CEvent.attempt 10, CEvent.delay 2, CEvent.attempt 10, CEvent.delay 2,
        CEvent.attempt 10], false) ∧
    CEvent.subscribe ∉ connProgram oracleFalse ∧
    incrCount (connProgram oracleFalse) = 1 :=
  (connect_retry_policy oracleFalse).2.2.1 (fun k _ => rfl)

/-- Observable events of the supervision loop of connection_run: one poll
of the liveness check, a detected link loss, a reconnect attempt with its
timeout and outcome, the renewed subscription after a successful
reconnect, the permanent exit after a failed one, and the observation of
the stop flag. -/
inductive SupEvent
  | poll
  | lossDetected
  | reconnectAttempt (timeout : Nat) (ok : Bool)
  | resubscribe
  | exitPermanent
  | stopObserved
deriving DecidableEq

/-- The supervision loop of connection_run, driven by oracles giving, per
poll cycle, whether the stop flag is set, whether the link is still up,
and whether a reconnect attempt (connect with timeout 5 followed by the
renewed start of the data feed) would succeed. The loop checks the stop
flag, sleeps, checks liveness; a detected loss triggers exactly one
reconnect attempt: success re-subscribes and continues the loop, failure
(or an exception) breaks out of the loop for good. Fuel bounds the number
of iterations modelled. -/
def supervisionLoop (stop conn recOk : Nat → Bool) : Nat → Nat → List SupEvent
  | _, 0 => []
  | n, fuel + 1 =>
    if stop n then [SupEvent.stopObserved]
    else if conn n then SupEvent.poll :: supervisionLoop stop conn recOk (n + 1) fuel
    else if recOk n then
      SupEvent.poll :: SupEvent.lossDetected :: SupEvent.reconnectAttempt 5 true ::
        SupEvent.resubscribe :: supervisionLoop stop conn recOk (n + 1) fuel
    else
      [SupEvent.poll, SupEvent.lossDetected, SupEvent.reconnectAttempt 5 false,
        SupEvent.exitPermanent]

/-- Recognizer for loss-detection events. -/
def isLoss : SupEvent → Bool
  | SupEvent.lossDetected => true
  | _ => false

/-- Recognizer for reconnect attempts. -/
def isRec : SupEvent → Bool
  | SupEvent.reconnectAttempt _ _ => true
  | _ => false

/-- Recognizer for failed reconnect attempts. -/
def isRecFail : SupEvent → Bool
  | SupEvent.reconnectAttempt _ false => true
  | _ => false

/-- Helper: the supervision loop makes exactly one reconnect attempt per
detected link loss. -/
theorem supLoop_loss_eq_rec (stop conn recOk : Nat → Bool) : ∀ fuel n,
    (supervisionLoop stop conn recOk n fuel).countP isLoss =
      (supervisionLoop stop conn recOk n fuel).countP isRec := by
  intro fuel
  induction fuel with
  | zero => intro n; rfl
  | succ fuel ih =>
    intro n
    by_cases hstop : stop n
    · simp [supervisionLoop, hstop, List.countP_cons, isLoss, isRec]
    · by_cases hconn : conn n
      · simp [supervisionLoop, hstop, hconn, List.countP_cons, isLoss, isRec, ih (n + 1)]
      · by_cases hrec : recOk n
        · simp [supervisionLoop, hstop, hconn, hrec, List.countP_cons, isLoss,
            isRec, ih (n + 1)]
        · simp [supervisionLoop, hstop, hconn, hrec, List.countP_cons, isLoss, isRec]

/-- Helper: every reconnect attempt carries timeout 5. -/
theorem supLoop_timeout (stop conn recOk : Nat → Bool) : ∀ fuel n t ok,
    SupEvent.reconnectAttempt t ok ∈ supervisionLoop stop conn recOk n fuel →
    t = 5 := by
  intro fuel
  induction fuel with
  | zero => intro n t ok h; simp [supervisionLoop] at h
  | succ fuel ih =>
    intro n t ok h
    by_cases hstop : stop n
    · simp [supervisionLoop, hstop] at h
    · by_cases hconn : conn n
      · simp only [supervisionLoop, hstop, if_false, hconn, if_true] at h
        rcases List.mem_cons.mp h with h2 | h2
        · exact absurd h2 (by simp)
        · exact ih (n + 1) t ok h2
      · by_cases hrec : recOk n
        · simp only [supervisionLoop, hstop, if_false, hconn, hrec, if_true] at h
          rcases List.mem_cons.mp h with h2 | h2
          · exact absurd h2 (by simp)
          rcases List.mem_cons.mp h2 with h3 | h3
          · exact absurd h3 (by simp)
          rcases List.mem_cons.mp h3 with h4 | h4
          · exact ((SupEvent.reconnectAttempt.injEq _ _ _ _).mp h4).1
          rcases List.mem_cons.mp h4 with h5 | h5
          · exact absurd h5 (by simp)
          · exact ih (n + 1) t ok h5
        · simp only [supervisionLoop, hstop, if_false, hconn, hrec] at h
          rcases List.mem_cons.mp h with h2 | h2
          · exact absurd h2 (by simp)
          rcases List.mem_cons.mp h2 with h3 | h3
          · exact absurd h3 (by simp)
          rcases List.mem_cons.mp h3 with h4 | h4
          · exact ((SupEvent.reconnectAttempt.injEq _ _ _ _).mp h4).1
          · simp at h4

/-- Helper: after a failed reconnect attempt the loop emits only the
permanent exit; nothing else in the session follows for that device. -/
theorem supLoop_fail_terminal (stop conn recOk : Nat → Bool) : ∀ fuel n,
    SupEvent.reconnectAttempt 5 false ∈ supervisionLoop stop conn recOk n fuel →
    ∃ pre, supervisionLoop stop conn recOk n fuel =
      pre ++ [SupEvent.reconnectAttempt 5 false, SupEvent.exitPermanent] := by
  intro fuel
  induction fuel with
  | zero => intro n h; simp [supervisionLoop] at h
  | succ fuel ih =>
    intro n h
    by_cases hstop : stop n
    · simp [supervisionLoop, hstop] at h
    · by_cases hconn : conn n
      · rw [show supervisionLoop stop conn recOk n (fuel + 1) =
            SupEvent.poll :: supervisionLoop stop conn recOk (n + 1) fuel by
          simp [supervisionLoop, hstop, hconn]] at h ⊢
        rcases List.mem_cons.mp h with h2 | h2
        · exact absurd h2 (by simp)
        · obtain ⟨pre, hpre⟩ := ih (n + 1) h2
          exact ⟨SupEvent.poll :: pre, by rw [hpre]; rfl⟩
      · by_cases hrec : recOk n
        · rw [show supervisionLoop stop conn recOk n (fuel + 1) =
              SupEvent.poll :: SupEvent.lossDetected ::
                SupEvent.reconnectAttempt 5 true :: SupEvent.resubscribe ::
                supervisionLoop stop conn recOk (n + 1) fuel by
            simp [supervisionLoop, hstop, hconn, hrec]] at h ⊢
          have h2 : SupEvent.reconnectAttempt 5 false ∈
              supervisionLoop stop conn recOk (n + 1) fuel := by
            simp at h
            simpa using h
          obtain ⟨pre, hpre⟩ := ih (n + 1) h2
          exact ⟨SupEvent.poll :: SupEvent.lossDetected ::
            SupEvent.reconnectAttempt 5 true :: SupEvent.resubscribe :: pre,
            by rw [hpre]; rfl⟩
        · refine ⟨[SupEvent.poll, SupEvent.lossDetected], ?_⟩
          simp [supervisionLoop, hstop, hconn, hrec]

/-- Helper: at most one reconnect attempt ever fails, since the first
failure ends the loop. -/
theorem supLoop_fail_once (stop conn recOk : Nat → Bool) : ∀ fuel n,
    (supervisionLoop stop conn recOk n fuel).countP isRecFail ≤ 1 := by
  intro fuel
  induction fuel with
  | zero => intro n; simp [supervisionLoop]
  | succ fuel ih =>
    intro n
    by_cases hstop : stop n
    · simp [supervisionLoop, hstop, List.countP_cons, isRecFail]
    · by_cases hconn : conn n
      · simp [supervisionLoop, hstop, hconn, List.countP_cons, isRecFail]
        exact ih (n + 1)
      · by_cases hrec : recOk n
        · simp [supervisionLoop, hstop, hconn, hrec, List.countP_cons, isRecFail]
          exact ih (n + 1)
        · simp [supervisionLoop, hstop, hconn, hrec, List.countP_cons, isRecFail]

/-- Helper: every successful reconnect attempt is immediately followed by
the renewed subscription, after which the loop resumes. -/
theorem supLoop_success_resumes (stop conn recOk : Nat → Bool) : ∀ fuel n,
    SupEvent.reconnectAttempt 5 true ∈ supervisionLoop stop conn recOk n fuel →
    ∃ pre post, supervisionLoop stop conn recOk n fuel =
      pre ++ SupEvent.reconnectAttempt 5 true :: SupEvent.resubscribe :: post := by
  intro fuel
  induction fuel with
  | zero => intro n h; simp [supervisionLoop] at h
  | succ fuel ih =>
    intro n h
    by_cases hstop : stop n
    · simp [supervisionLoop, hstop] at h
    · by_cases hconn : conn n
      · rw [show supervisionLoop stop conn recOk n (fuel + 1) =
            SupEvent.poll :: supervisionLoop stop conn recOk (n + 1) fuel by
          simp [supervisionLoop, hstop, hconn]] at h ⊢
        rcases List.mem_cons.mp h with h2 | h2
        · exact absurd h2 (by simp)
        · obtain ⟨pre, post, hpre⟩ := ih (n + 1) h2
          exact ⟨SupEvent.poll :: pre, post, by rw [hpre]; rfl⟩
      · by_cases hrec : recOk n
        · refine ⟨[SupEvent.poll, SupEvent.lossDetected],
            supervisionLoop stop conn recOk (n + 1) fuel, ?_⟩
          simp [supervisionLoop, hstop, hconn, hrec]
        · exfalso
          simp [supervisionLoop, hstop, hconn, hrec] at h

/-- Claim C6: for each detected link loss exactly one reconnect attempt is
made and it carries timeout 5; on success the device re-subscribes to its
data feed and the loop resumes; on failure the loop ends permanently with
the exit event, at most one reconnect ever fails, and no further
reconnect attempt for that device follows in the session. -/
theorem reconnect_policy (stop conn recOk : Nat → Bool) (fuel n : Nat) :
    ((supervisionLoop stop conn recOk n fuel).countP isLoss =
      (supervisionLoop stop conn recOk n fuel).countP isRec) ∧
    (∀ t ok, SupEvent.reconnectAttempt t ok ∈
      supervisionLoop stop conn recOk n fuel → t = 5) ∧
    (SupEvent.reconnectAttempt 5 false ∈ supervisionLoop stop conn recOk n fuel →
      ∃ pre, supervisionLoop stop conn recOk n fuel =
        pre ++ [SupEvent.reconnectAttempt 5 false, SupEvent.exitPermanent]) ∧
    ((supervisionLoop stop conn recOk n fuel).countP isRecFail ≤ 1) ∧
    (SupEvent.reconnectAttempt 5 true ∈ supervisionLoop stop conn recOk n fuel →
      ∃ pre post, supervisionLoop stop conn recOk n fuel =
        pre ++ SupEvent.reconnectAttempt 5 true :: SupEvent.resubscribe :: post) :=
  ⟨supLoop_loss_eq_rec stop conn recOk fuel n,
   supLoop_timeout stop conn recOk fuel n,
   supLoop_fail_terminal stop conn recOk fuel n,
   supLoop_fail_once stop conn recOk fuel n,
   supLoop_success_resumes stop conn recOk fuel n⟩

/-- Witness for C6 at the all-false oracles: the first poll detects a
loss, the single reconnect attempt fails with timeout 5, and the loop
ends. -/
theorem reconnect_policy_witness :
    SupEvent.reconnectAttempt 5 false ∈
      supervisionLoop oracleFalse oracleFalse oracleFalse 0 1 ∧
    (5 : Nat) = 5 ∧
    (supervisionLoop oracleFalse oracleFalse oracleFalse 0 1).countP isRecFail ≤ 1 :=
  ⟨by decide,
   (reconnect_policy oracleFalse oracleFalse oracleFalse 1 0).2.1 5 false (by decide),
   (reconnect_policy oracleFalse oracleFalse oracleFalse 1 0).2.2.2.1⟩
